import Mathlib

/-!
Verification of the ATP Emby Smart Cache engine
(src/atp_emby_smart_cache/src/atp_emby_smart_cache.py).

Paths are modelled as lists of characters (the content of a Python `str` /
`pathlib.Path`); the filesystem is an association list from paths to file
sizes; the SQLite tables are association lists keyed as the schema's UNIQUE
columns dictate, with `INSERT OR REPLACE` modelled as delete-then-append,
exactly SQLite's behaviour.  Timestamps are natural numbers (seconds).
-/

namespace SmartCache

/-- Character content of a path string (a Python `str`). -/
abbrev Str := List Char

/-- Test `hasPre pre s`: true when `pre` is an initial segment of `s`
(Python `s.startswith(pre)` is `hasPre pre s`). -/
def hasPre : Str → Str → Bool
  | [], _ => true
  | _ :: _, [] => false
  | a :: as, b :: bs => a == b && hasPre as bs

/-- Python `s.startswith(pre)`. -/
def startsWithS (s pre : Str) : Bool := hasPre pre s

/-- Python `s.endswith(suf)`. -/
def endsWithS (s suf : Str) : Bool := hasPre suf.reverse s.reverse

/-- Final path component (Python `Path(p).name`): characters after the last
slash, the whole string when no slash occurs. -/
def nameOf (p : Str) : Str :=
  p.foldl (fun acc c => if c == '/' then [] else acc ++ [c]) []

/-- Directory part of a path: characters strictly before the last slash
(empty when no slash occurs).  Only ever used to compare whether two files
live in the same directory and to rebuild a sibling path, so the exact
representation of the root is immaterial. -/
def parentOf (p : Str) : Str :=
  if p.contains '/' then p.take (p.length - (nameOf p).length - 1) else []

/-- Python `Path(ref).with_name(n)`: sibling of `ref` called `n`. -/
def withName (ref n : Str) : Str := parentOf ref ++ '/' :: n

/-- Index of the last occurrence of `c` in `l`, if any. -/
def lastIdxOf (l : Str) (c : Char) : Option Nat :=
  (l.foldl (fun st ch => (st.1 + 1, if ch == c then some st.1 else st.2))
    ((0 : Nat), (none : Option Nat))).2

/-- Python `Path(name).suffix`: the extension of the final component,
including the dot, and empty unless the last dot sits strictly inside the
name (pathlib: `0 < i < len(name) - 1`). -/
def pySuffix (name : Str) : Str :=
  match lastIdxOf name '.' with
  | some i => if 0 < i && i + 1 < name.length then name.drop i else []
  | none => []

/-- Python `Path(name).stem`: the final component without `pySuffix`. -/
def pyStem (name : Str) : Str :=
  match lastIdxOf name '.' with
  | some i => if 0 < i && i + 1 < name.length then name.take i else name
  | none => name

/-- Python `s.lower()` (ASCII view, which is all the config uses). -/
def lowerS (s : Str) : Str := s.map Char.toLower

/-- One step of Python `s.replace(old, new)` for a nonempty pattern
`o0 :: orest`: replaces every non-overlapping occurrence, left to right.
The fuel argument (instantiated with the string length, which every match
consumes at least one unit of) keeps the recursion structural. -/
def replaceAllGo (o0 : Char) (orest new : Str) : Str → Nat → Str
  | _, 0 => []
  | [], _ + 1 => []
  | c :: t, fuel + 1 =>
    if hasPre (o0 :: orest) (c :: t) then
      new ++ replaceAllGo o0 orest new (t.drop orest.length) fuel
    else c :: replaceAllGo o0 orest new t fuel

/-- Python `s.replace(old, new)` (all occurrences).  For the empty pattern
Python interleaves `new` between characters; no call site passes an empty
pattern under the guards used in the source, so that case returns `s`. -/
def pyReplace (s old new : Str) : Str :=
  match old with
  | [] => s
  | o0 :: orest => replaceAllGo o0 orest new s s.length

/-- One step of Python `s.replace(old, new, 1)` for a nonempty pattern:
replaces only the first occurrence. -/
def replaceFirstAux (o0 : Char) (orest new : Str) : Str → Str
  | [] => []
  | c :: t =>
    if hasPre (o0 :: orest) (c :: t) then new ++ t.drop orest.length
    else c :: replaceFirstAux o0 orest new t

/-- Python `s.replace(old, new, 1)` (first occurrence only). -/
def pyReplaceFirst (s old new : Str) : Str :=
  match old with
  | [] => s
  | o0 :: orest => replaceFirstAux o0 orest new s

/-- Python `sub in s` (substring containment) for a fixed pattern. -/
def containsSubAux (pat : Str) : Str → Bool
  | [] => hasPre pat []
  | c :: t => hasPre pat (c :: t) || containsSubAux pat t

/-- Python `sub in s`. -/
def containsSub (s pat : Str) : Bool := containsSubAux pat s

/-! ## Filesystem model

An association list from paths to sizes; only regular files are tracked
(directories never influence the claims).  `rename` moves the size value,
`erase` deletes, matching `os.rename` / `os.remove` on success. -/

/-- The filesystem: a finite list of (path, size in bytes) entries. -/
abbrev Fs := List (Str × Nat)

/-- Size recorded for `p`, if the file exists. -/
def Fs.find? : Fs → Str → Option Nat
  | [], _ => none
  | (q, n) :: t, p => if q = p then some n else Fs.find? t p

/-- Python `p.exists()` / `os.path.exists(p)`. -/
def Fs.hasFile (fs : Fs) (p : Str) : Bool := (fs.find? p).isSome

/-- Python `p.stat().st_size` (0 when absent; call sites guard existence). -/
def Fs.sizeOf (fs : Fs) (p : Str) : Nat := (fs.find? p).getD 0

/-- Delete `p` (Python `os.remove` / `Path.unlink`). -/
def Fs.erase : Fs → Str → Fs
  | [], _ => []
  | e :: t, p => if e.1 = p then Fs.erase t p else e :: Fs.erase t p

/-- Create or overwrite `p` with size `n`. -/
def Fs.insert (fs : Fs) (p : Str) (n : Nat) : Fs := (p, n) :: fs.erase p

/-- Python `os.rename(src, dst)`: moves the file.  When `src` is absent the
real call raises and every call site catches the exception and leaves the
filesystem alone, so the model returns `fs` unchanged there. -/
def Fs.rename (fs : Fs) (src dst : Str) : Fs :=
  if fs.hasFile src then (fs.erase src).insert dst (fs.sizeOf src) else fs

/-- The files of the directory containing `ref`
(Python `ref.parent.iterdir()` / `ref.parent.glob(...)`, restricted to
regular files, which is all the loops touch). -/
def Fs.iterdirOf (fs : Fs) (ref : Str) : List Str :=
  (fs.map Prod.fst).filter (fun q => parentOf q == parentOf ref)

/-! ## Configuration (class `Config` of the source)

Only the settings the claims exercise are carried.  Sizes configured in GB
are natural numbers; the source compares floats `size/2**30 > MAX` and
`free/2**30 < MIN + size/2**30`, which for natural-number settings is the
exact rational comparison in bytes used below. -/

/-- Constant `Config.HIDDEN_SUFFIX`: the ownership-marker suffix. -/
def HIDDEN_SUFFIX : Str := ".moved_to_cache".data

/-- Constant `Config.PARTIAL_SUFFIX`: the temp-copy suffix. -/
def PARTIAL_SUFFIX : Str := ".partial".data

/-- Constant `Config.ALLOWED_SUB_EXTS`: sidecar subtitle extensions. -/
def ALLOWED_SUB_EXTS : List Str :=
  [".srt".data, ".sub".data, ".idx".data, ".vtt".data, ".ass".data, ".smi".data]

/-- Constant `Config.VALID_MOUNT_PREFIXES`: the whitelist used by `validate_path`. -/
def VALID_MOUNT_PREFIXES : List Str :=
  ["/mnt/user".data, "/mnt/cache".data, "/mnt/disk".data, "/mnt/user0".data,
   "/mnt/remotes".data]

/-- The loaded settings dictionary `Config.C` (claim-relevant keys). -/
structure Config where
  ENABLED : Bool
  UNRAID_USER_PATH : Str
  CACHE_PATH : Str
  ARRAY_ONLY_PATH : Str
  MIN_FREE_SPACE_GB : Nat
  MAX_FILE_SIZE_GB : Nat
  SKIP_HARDLINKS : Bool
  DELETE_ON_STOP : Bool
  CLEANUP_DELAY_HOURS : Nat
  ALLOWED_EXTS_SET : List Str
  EXCLUDE_LIST : List Str
  RSYNC_RETRIES : Nat
deriving DecidableEq

/-- Method `Config.validate_path`: the path must start with `/mnt/` and with one of
the whitelisted mount roots. -/
def validate_path (path_str : Str) : Bool :=
  if !(startsWithS path_str "/mnt/".data) then false
  else VALID_MOUNT_PREFIXES.any (fun pre => startsWithS path_str pre)

/-- The startup safety gate of `main`: `sys.exit(1)` happens exactly when
`Config.validate_path(CACHE_PATH)` fails; no other tier root is checked. -/
def startupFatal (c : Config) : Bool := !(validate_path c.CACHE_PATH)

/-! ## PathTools -/

/-- Method `PathTools.get_cache`: user view to cache tier.  The source guards
`s.startswith(UNRAID_USER_PATH)` and then runs `s.replace(user, cache, 1)`;
under the guard the first occurrence is the prefix. -/
def get_cache (c : Config) (p : Str) : Option Str :=
  if startsWithS p c.UNRAID_USER_PATH
  then some (pyReplaceFirst p c.UNRAID_USER_PATH c.CACHE_PATH) else none

/-- Method `PathTools.get_array`: user view to array-only tier. -/
def get_array (c : Config) (p : Str) : Option Str :=
  if startsWithS p c.UNRAID_USER_PATH
  then some (pyReplaceFirst p c.UNRAID_USER_PATH c.ARRAY_ONLY_PATH) else none

/-- Method `PathTools.get_user`: tier path back to the user view; returns the input
unchanged when neither root matches (the source's final `return Path(p)`). -/
def get_user (c : Config) (p : Str) : Str :=
  if startsWithS p c.CACHE_PATH then pyReplaceFirst p c.CACHE_PATH c.UNRAID_USER_PATH
  else if startsWithS p c.ARRAY_ONLY_PATH then pyReplaceFirst p c.ARRAY_ONLY_PATH c.UNRAID_USER_PATH
  else p

/-! ## Mover-ignore registry (class `MoverIgnore`)

The flat file of union-view paths, modelled as a duplicate-free-by-
construction list: `add` appends when absent, `remove` deletes every match,
exactly the source's read-dedup-append / rewrite-without-line behaviour. -/

/-- Method `MoverIgnore.add` on an already-`get_user`-translated path. -/
def miAdd (l : List Str) (p : Str) : List Str := if l.contains p then l else l ++ [p]

/-- Method `MoverIgnore.remove` on an already-`get_user`-translated path. -/
def miRemove (l : List Str) (p : Str) : List Str := l.filter (fun x => x != p)

/-! ## Database (class `Database`)

`managed_files` and `cleanup_queue` have a UNIQUE `user_path` column and are
written with `INSERT OR REPLACE`, which in SQLite deletes the conflicting
row and appends the new one; `activity_log` is append-only.  `cached_at` /
`scheduled_at` timestamps and the `stats` table feed only the reporting API
and are not modelled. -/

/-- A row of `managed_files`. -/
structure ManagedRow where
  user_path : Str
  cache_path : Str
  array_path : Str
  filename : Str
  size_bytes : Nat
deriving DecidableEq

/-- A row of `cleanup_queue`. -/
structure QueueRow where
  user_path : Str
  filename : Str
  cleanup_time : Nat
deriving DecidableEq

/-- A row of `activity_log`. -/
structure ActivityRow where
  action : Str
  filename : Str
  path : Str
  details : Str
deriving DecidableEq

/-- The SQLite state. -/
structure Db where
  managed : List ManagedRow
  queue : List QueueRow
  activity : List ActivityRow
deriving DecidableEq

/-- SQL `INSERT OR REPLACE INTO managed_files`: delete any row with the same
`user_path`, then append. -/
def insertManaged (m : List ManagedRow) (r : ManagedRow) : List ManagedRow :=
  m.filter (fun x => x.user_path != r.user_path) ++ [r]

/-- Method `Database._log_activity` (the 1000-row cap only trims reporting history
and never affects engine decisions, so it is not modelled). -/
def Db.logActivity (db : Db) (action filename path details : Str) : Db :=
  { db with activity := db.activity ++ [⟨action, filename, path, details⟩] }

/-- Method `Database.add_managed_file`: insert-or-replace the row, then log an
activity entry when `log_action` is not `None` (the source formats a
`Size: ...` detail string, summarised here as the raw byte count's row). -/
def Db.add_managed_file (db : Db) (r : ManagedRow) (log_action : Option Str) : Db :=
  let db1 := { db with managed := insertManaged db.managed r }
  match log_action with
  | some a => db1.logActivity a r.filename r.user_path "Size".data
  | none => db1

/-- Method `Database.remove_managed_file`: delete the row when present and log a
`cleanup` activity entry; returns whether a row existed. -/
def Db.remove_managed_file (db : Db) (p : Str) : Db × Bool :=
  match db.managed.find? (fun r => r.user_path == p) with
  | some r =>
    let m := db.managed.filter (fun x => x.user_path != p)
    let act := db.activity ++ [⟨"cleanup".data, r.filename, p, "File removed from cache".data⟩]
    ({ managed := m, queue := db.queue, activity := act }, true)
  | none => (db, false)

/-- Method `Database.is_managed`. -/
def Db.is_managed (db : Db) (p : Str) : Bool := db.managed.any (fun r => r.user_path == p)

/-- Method `Database.schedule_cleanup`: `INSERT OR REPLACE INTO cleanup_queue` with
`cleanup_time = time.time() + delay_hours * 3600`. -/
def Db.schedule_cleanup (db : Db) (now : Nat) (p fn : Str) (delay_hours : Nat) : Db :=
  { db with queue := db.queue.filter (fun q => q.user_path != p) ++
      [⟨p, fn, now + delay_hours * 3600⟩] }

/-- Method `Database.remove_from_queue`: delete and report whether a row matched. -/
def Db.remove_from_queue (db : Db) (p : Str) : Db × Bool :=
  ({ db with queue := db.queue.filter (fun q => q.user_path != p) },
   db.queue.any (fun q => q.user_path == p))

/-- Method `Database.clear_all`: empties `managed_files` and `cleanup_queue`. -/
def Db.clear_all (db : Db) : Db := { managed := [], queue := [], activity := db.activity }

/-! ## Engine state and filesystem operation traces -/

/-- In-memory state of `CacheManager` plus the shared filesystem, database
and mover-ignore file: `processed` is the session dedup set, `active` the
in-flight promotion set. -/
structure EngineState where
  fs : Fs
  db : Db
  moverIgnore : List Str
  processed : List Str
  active : List Str
deriving DecidableEq

/-- A primitive mutating filesystem call issued by the engine. -/
inductive FsOp where
  | rename (src dst : Str)
  | removeFile (p : Str)
deriving DecidableEq

/-- Effect of one filesystem call. -/
def applyOp (fs : Fs) : FsOp → Fs
  | .rename s d => fs.rename s d
  | .removeFile p => fs.erase p

/-- Effect of a call sequence, first op first. -/
def applyOps (fs : Fs) (ops : List FsOp) : Fs := ops.foldl applyOp fs

/-- Result dictionary of `CacheManager.force_cleanup`. -/
structure CleanupResult where
  success : Bool
  message : Str
deriving DecidableEq

/-- Path normalisation at the top of `force_cleanup`: a cache-tier input is
rewritten to the user view with `str.replace` (all occurrences — the source
passes no count). -/
def normalizeInput (c : Config) (s : Str) : Str :=
  if startsWithS s c.CACHE_PATH then pyReplace s c.CACHE_PATH c.UNRAID_USER_PATH else s

/-- The sidecar-marker files `force_cleanup` restores: entries of the array
directory whose name starts with the original's stem and ends with the
marker suffix. -/
def subtitleRestoreList (fs : Fs) (arr : Str) : List Str :=
  (fs.iterdirOf arr).filter (fun f =>
    startsWithS (nameOf f) (pyStem (nameOf arr)) && endsWithS (nameOf f) HIDDEN_SUFFIX)

/-- Computation `orig = f.with_name(f.name[:-len(HIDDEN_SUFFIX)])`. -/
def subtitleOrig (f : Str) : Str :=
  withName f ((nameOf f).take ((nameOf f).length - HIDDEN_SUFFIX.length))

/-- The cached sidecar files `force_cleanup` deletes: entries of the cache
directory whose name starts with the cache copy's stem and whose extension
is a subtitle extension. -/
def subtitleDeleteList (fs : Fs) (cacheP : Str) : List Str :=
  (fs.iterdirOf cacheP).filter (fun g =>
    startsWithS (nameOf g) (pyStem (nameOf cacheP)) &&
      ALLOWED_SUB_EXTS.contains (lowerS (pySuffix (nameOf g))))

/-- The trace of mutating filesystem calls the managed branch of
`force_cleanup` issues, in program order: restore of the hidden original
(guarded by its own existence re-check), sidecar-marker restores, then —
when the cache copy exists at that point — deletion of the cache copy
followed by deletion of its cached subtitles (the subtitle listing is
taken after the copy is removed, as `iterdir` runs after `os.remove`). -/
def demoteOps (fs : Fs) (arr cacheP : Str) : List FsOp :=
  let hidden := arr ++ HIDDEN_SUFFIX
  let ops1 : List FsOp := if fs.hasFile hidden then [.rename hidden arr] else []
  let fs1 := applyOps fs ops1
  let subs := subtitleRestoreList fs1 arr
  let ops2 : List FsOp := subs.map (fun f => .rename f (subtitleOrig f))
  let fs2 := applyOps fs1 ops2
  let ops3 : List FsOp :=
    if fs2.hasFile cacheP then
      FsOp.removeFile cacheP ::
        (subtitleDeleteList (fs2.erase cacheP) cacheP).map FsOp.removeFile
    else []
  ops1 ++ ops2 ++ ops3

/-- Method `CacheManager.force_cleanup` (Demote).  Returns the new state, the
result dictionary, and the trace of mutating filesystem calls in program
order (the returned state's filesystem is the trace applied to the input
filesystem).  The ownership check precedes every mutation; after it the
sub-steps run in source order: queue row, managed row, mover-ignore entry,
then the filesystem trace `demoteOps` with its interleaved mover-ignore
removals. -/
def force_cleanup (c : Config) (st : EngineState) (user_path_str : Str) :
    EngineState × CleanupResult × List FsOp :=
  let u := normalizeInput c user_path_str
  match get_array c u with
  | none => (st, ⟨false, "Cannot determine array path".data⟩, [])
  | some arr =>
    let hidden := arr ++ HIDDEN_SUFFIX
    if !(st.fs.hasFile hidden) then
      (st, ⟨false, "Cannot cleanup: This is a native cache file, not managed by Emby Smart Cache.".data⟩, [])
    else
      let cacheP := (get_cache c u).getD u
      let db1 := (st.db.remove_from_queue u).1
      let db2 := (db1.remove_managed_file u).1
      let mi1 := miRemove st.moverIgnore (get_user c u)
      let fs1 := st.fs.rename hidden arr
      let subs := subtitleRestoreList fs1 arr
      let fs2 := applyOps fs1 (subs.map (fun f => .rename f (subtitleOrig f)))
      let mi2 := subs.foldl (fun mi f => miRemove mi (get_user c (subtitleOrig f))) mi1
      let mi3 :=
        if fs2.hasFile cacheP then
          (subtitleDeleteList (fs2.erase cacheP) cacheP).foldl
            (fun mi g => miRemove mi (get_user c g)) mi2
        else mi2
      let ops := demoteOps st.fs arr cacheP
      ({ fs := applyOps st.fs ops, db := db2, moverIgnore := mi3,
         processed := st.processed, active := st.active },
       ⟨true, "Cleanup complete: ".data ++ nameOf u⟩, ops)

/-- Method `CacheManager.schedule_cleanup` (ScheduleDemote): gated on
`DELETE_ON_STOP`; when an array path is computable and its marker is absent
the call returns without touching the queue; otherwise the entry is
inserted-or-replaced with `cleanup_time = now + CLEANUP_DELAY_HOURS * 3600`. -/
def schedule_cleanup (c : Config) (fs : Fs) (db : Db) (now : Nat) (path : Str) : Db :=
  if !c.DELETE_ON_STOP then db
  else
    match get_array c path with
    | some arr =>
      if !(fs.hasFile (arr ++ HIDDEN_SUFFIX)) then db
      else db.schedule_cleanup now path (nameOf path) c.CLEANUP_DELAY_HOURS
    | none => db.schedule_cleanup now path (nameOf path) c.CLEANUP_DELAY_HOURS

/-! ## Recovery scan (`CacheManager._recover_state`) -/

/-- The marker files found by `Path(ARRAY_ONLY_PATH).rglob("*" +
HIDDEN_SUFFIX)`: files under the array root whose name ends with the
marker suffix. -/
def recoverMarkers (c : Config) (fs : Fs) : List Str :=
  (fs.map Prod.fst).filter (fun p =>
    startsWithS p (c.ARRAY_ONLY_PATH ++ ['/']) && endsWithS (nameOf p) HIDDEN_SUFFIX)

/-- The row one discovered marker contributes, if any: strip the suffix
from the name (`str.replace`, all occurrences), skip subtitle sidecars,
and require the computed cache copy to exist with non-zero size.  All
`continue` branches of the source's loop body return `none`. -/
def recoverRow? (c : Config) (fs : Fs) (hidden : Str) : Option ManagedRow :=
  let base := pyReplace (nameOf hidden) HIDDEN_SUFFIX []
  if ALLOWED_SUB_EXTS.contains (lowerS (pySuffix base)) then none
  else
    let arr_orig := withName hidden base
    let user_path := get_user c arr_orig
    match get_cache c user_path with
    | none => none
    | some cache_path =>
      if !(fs.hasFile cache_path) then none
      else
        let size := fs.sizeOf cache_path
        if size == 0 then none
        else some ⟨user_path, cache_path, arr_orig, base, size⟩

/-- Handling of one discovered marker: when `recoverRow?` accepts it,
insert the `managed_files` row with `log_action=None` and register the
mover-ignore entry (`MoverIgnore.add(user_path)`). -/
def recoverStep (c : Config) (fs : Fs) (st : Db × List Str) (hidden : Str) : Db × List Str :=
  match recoverRow? c fs hidden with
  | none => st
  | some r => (st.1.add_managed_file r none, miAdd st.2 (get_user c r.user_path))

/-- Method `CacheManager._recover_state`: fold the per-marker handler over the
scan results.  Note it only ever inserts; nothing is cleared or deleted. -/
def recover_state (c : Config) (fs : Fs) (db : Db) (mi : List Str) : Db × List Str :=
  (recoverMarkers c fs).foldl (recoverStep c fs) (db, mi)

/-- The rows a scan of `fs` derives, a pure function of the filesystem. -/
def recoverRows (c : Config) (fs : Fs) : List ManagedRow :=
  (recoverMarkers c fs).filterMap (recoverRow? c fs)

/-- True when no row of `l` carries `x`'s key; rows surviving a batch of
keyed insert-or-replace writes are exactly those whose key the batch does
not mention. -/
def rowKeyFree (l : List ManagedRow) (x : ManagedRow) : Bool :=
  !(l.any (fun r => r.user_path == x.user_path))

/-- The `/api/rebuild` handler: `DB.clear_all()` then `_recover_state()`. -/
def rebuild (c : Config) (fs : Fs) (db : Db) (mi : List Str) : Db × List Str :=
  recover_state c fs db.clear_all mi

/-! ## Promotion (`CacheManager.copy_file` and `CacheManager._worker`) -/

/-- Why `copy_file` returned, in source order of the checks. -/
inductive CopyResult where
  | disabled
  | excluded
  | badExt
  | parityBusy
  | noPath
  | invalidCachePath
  | hardlinkSkip
  | alreadyProcessed
  | tooLarge
  | alreadyCached
  | nativeCache
  | sourceMissing
  | noSpace
  | alreadyActive
  | workerStarted
deriving DecidableEq

/-- Read-only environment probes `copy_file` consults: the `/proc/mdstat`
resync flag, per-file hard-link counts, and the cache tier's free bytes. -/
structure Env where
  parityResync : Bool
  nlinkOf : Str → Nat
  freeBytes : Nat

/-- Tail of `copy_file` after the queue-removal and dedup steps: size
ceiling, already-cached handling, source existence, free space, in-flight
guard, then worker launch.  The source compares `size/2**30` floats; for
natural-number settings that is exactly the byte comparison used here. -/
def copyFileRest (c : Config) (env : Env) (st : EngineState) (path arr cacheP : Str) :
    EngineState × CopyResult :=
  let size_bytes := if st.fs.hasFile arr then st.fs.sizeOf arr else 0
  if c.MAX_FILE_SIZE_GB > 0 ∧ size_bytes > c.MAX_FILE_SIZE_GB * 2 ^ 30 then (st, .tooLarge)
  else
    let hidden := arr ++ HIDDEN_SUFFIX
    if st.fs.hasFile cacheP then
      if st.fs.hasFile hidden then
        let mi1 := miAdd st.moverIgnore (get_user c path)
        let db2 :=
          if st.db.is_managed path then st.db
          else st.db.add_managed_file ⟨path, cacheP, arr, nameOf path, size_bytes⟩ none
        ({ st with moverIgnore := mi1, db := db2 }, .alreadyCached)
      else (st, .nativeCache)
    else if !(st.fs.hasFile arr) then (st, .sourceMissing)
    else if env.freeBytes < c.MIN_FREE_SPACE_GB * 2 ^ 30 + size_bytes then (st, .noSpace)
    else if st.active.contains path then (st, .alreadyActive)
    else ({ st with active := st.active ++ [path] }, .workerStarted)

/-- Method `CacheManager.copy_file` (Promote): the precondition gates in source
order.  Note that the cleanup-queue removal (resume handling) and the
dedup-set registration happen before the size and free-space checks. -/
def copy_file (c : Config) (env : Env) (st : EngineState) (path : Str) (item_id : Option Str) :
    EngineState × CopyResult :=
  if !c.ENABLED then (st, .disabled)
  else if c.EXCLUDE_LIST.any (fun ex => ex != ([] : Str) && containsSub path ex) then
    (st, .excluded)
  else if !(c.ALLOWED_EXTS_SET.contains (lowerS (pySuffix (nameOf path)))) then (st, .badExt)
  else if env.parityResync then (st, .parityBusy)
  else
    match get_array c path, get_cache c path with
    | some arr, some cacheP =>
      if !(validate_path cacheP) then (st, .invalidCachePath)
      else if c.SKIP_HARDLINKS = true ∧ st.fs.hasFile arr = true ∧ env.nlinkOf arr > 1 then
        (st, .hardlinkSkip)
      else
        let st1 : EngineState := { st with db := (st.db.remove_from_queue path).1 }
        match item_id with
        | some i =>
          if st1.processed.contains i then (st1, .alreadyProcessed)
          else copyFileRest c env { st1 with processed := st1.processed ++ [i] } path arr cacheP
        | none => copyFileRest c env st1 path arr cacheP
    | _, _ => (st, .noPath)

/-- How `_worker` ended. -/
inductive WorkerResult where
  | copyFailed
  | swapFailed
  | completed
deriving DecidableEq

/-- The sidecar files picked up by `arr.parent.glob(escape(arr.stem)+"*")`
filtered to subtitle extensions. -/
def sidecarList (fs : Fs) (arr : Str) : List Str :=
  (fs.iterdirOf arr).filter (fun f =>
    startsWithS (nameOf f) (pyStem (nameOf arr)) &&
      ALLOWED_SUB_EXTS.contains (lowerS (pySuffix (nameOf f))))

/-- One best-effort sidecar copy: `rsync` the file to
`cache.with_name(f.name)` unless the destination already exists. -/
def sidecarCopyStep (cacheP : Str) (fs : Fs) (f : Str) : Fs :=
  let dst := withName cacheP (nameOf f)
  if fs.hasFile dst then fs else fs.insert dst (fs.sizeOf f)

/-- The whole best-effort sidecar copy loop. -/
def sidecarCopyAll (cacheP : Str) (fs : Fs) (arr : Str) : Fs :=
  (sidecarList fs arr).foldl (sidecarCopyStep cacheP) fs

/-- The `for attempt in range(1, max_retries + 1)` rsync loop.  `ok a` is
the outcome (exit code 0) of attempt `a`; the fuel argument counts the
remaining iterations.  Returns overall success and the list of exponential
backoff waits (`2 ** attempt` seconds, slept only when another attempt
remains).  A failed attempt deletes the partial, so the filesystem is
unchanged across failures. -/
def rsyncGo (ok : Nat → Bool) (maxR : Nat) : Nat → Nat → Bool × List Nat
  | _, 0 => (false, [])
  | attempt, fuel + 1 =>
    if ok attempt then (true, [])
    else
      let rest := rsyncGo ok maxR (attempt + 1) fuel
      if attempt < maxR then (rest.1, 2 ^ attempt :: rest.2) else rest

/-- Method `CacheManager._worker`: sidecar copies, the retried bulk copy to the
`*.partial` temp path, then the atomic swap (hide original, move partial to
final) with rollback when the second rename fails; `swapOk` is the outcome
of that second rename.  The `finally` block discards the path from the
active set on every exit.  Directory creation, `chmod`/`chown` and the
`stats` counters have no bearing on the claims and are not modelled. -/
def worker (c : Config) (ok : Nat → Bool) (swapOk : Bool) (st : EngineState)
    (user_path cacheP arr : Str) (size_bytes : Nat) :
    EngineState × WorkerResult × List Nat :=
  let tmp := cacheP ++ PARTIAL_SUFFIX
  let hidden := arr ++ HIDDEN_SUFFIX
  let fs0 := sidecarCopyAll cacheP st.fs arr
  let run := rsyncGo ok c.RSYNC_RETRIES 1 c.RSYNC_RETRIES
  let act := st.active.filter (fun q => q != user_path)
  if !run.1 then
    ({ st with fs := fs0, active := act }, .copyFailed, run.2)
  else
    let fs1 := fs0.insert tmp size_bytes
    let fs2 := fs1.rename arr hidden
    if swapOk then
      let fs3 := fs2.rename tmp cacheP
      let subs := sidecarList fs3 arr
      let fs4 := subs.foldl (fun a f => a.rename f (f ++ HIDDEN_SUFFIX)) fs3
      let mi1 := subs.foldl
        (fun mi f => miAdd mi (get_user c (withName cacheP (nameOf f)))) st.moverIgnore
      let mi2 := miAdd mi1 (get_user c user_path)
      let db1 := st.db.add_managed_file
        ⟨user_path, cacheP, arr, nameOf user_path, size_bytes⟩ (some "copy".data)
      ({ st with fs := fs4, moverIgnore := mi2, db := db1, active := act }, .completed, run.2)
    else
      let fs3 := if fs2.hasFile hidden then fs2.rename hidden arr else fs2
      let fs4 := if fs3.hasFile tmp then fs3.erase tmp else fs3
      ({ st with fs := fs4, active := act }, .swapFailed, run.2)

/-! ## Concrete fixtures used by witnesses and counterexamples -/

/-- A representative configuration with the stock tier roots, `.mkv`
allowed, hard-link guard and delete-on-stop enabled. -/
def cfg0 : Config :=
  ⟨true, "/mnt/user".data, "/mnt/cache".data, "/mnt/user0".data, 1, 0, true, true, 24,
   [".mkv".data], [], 3⟩

/-- An empty database. -/
def emptyDb : Db := ⟨[], [], []⟩

/-- A user-view path fixture. -/
def pathW : Str := "/mnt/user/movies/film.mkv".data

/-- Its array-tier translation. -/
def arrW : Str := "/mnt/user0/movies/film.mkv".data

/-- Its cache-tier translation. -/
def cacheW : Str := "/mnt/cache/movies/film.mkv".data

/-- A stale `managed_files` row used to exhibit the merge behaviour of the
recovery scan. -/
def staleRow : ManagedRow := ⟨pathW, cacheW, arrW, "film.mkv".data, 9⟩

/-- Configuration `cfg0` with a 1 GB file-size ceiling. -/
def cfgCeil : Config :=
  ⟨true, "/mnt/user".data, "/mnt/cache".data, "/mnt/user0".data, 1, 1, true, true, 24,
   [".mkv".data], [], 3⟩

/-- A quiet environment: no parity check running, link count 1 everywhere,
ample free space. -/
def envIdle : Env := ⟨false, fun _ => 1, 10 ^ 15⟩

/-- A pending queue entry for the fixture path. -/
def queuedW : QueueRow := ⟨pathW, "film.mkv".data, 4242⟩

/-- Engine state with a 3 GB array-tier original and the fixture path
sitting in the cleanup queue. -/
def stQueued : EngineState :=
  ⟨[(arrW, 3 * 2 ^ 30)], ⟨[], [queuedW], []⟩, [], [], []⟩

/-- Engine state whose dedup set already holds an item key and whose
cleanup queue holds the fixture path. -/
def stDeduped : EngineState :=
  ⟨[(arrW, 5)], ⟨[], [queuedW], []⟩, [], ["item-42".data], []⟩

/-- Engine state of a fully promoted fixture file: marker on the array
tier, copy on the cache tier. -/
def stMarked : EngineState :=
  ⟨[(arrW ++ HIDDEN_SUFFIX, 100), (cacheW, 100)], emptyDb, [], [], []⟩

/-- A subtitle sidecar sitting next to the fixture original on the array
tier. -/
def srtArrW : Str := "/mnt/user0/movies/film.srt".data

/-- The cache-tier destination of that sidecar's best-effort copy. -/
def srtCacheW : Str := "/mnt/cache/movies/film.srt".data

/-- Engine state before a promotion of the fixture file that has a
subtitle sidecar next to it: original and sidecar on the array tier,
nothing on the cache tier. -/
def stSidecar : EngineState := ⟨[(arrW, 88), (srtArrW, 7)], emptyDb, [], [], []⟩

/-! ## Filesystem lemmas -/

theorem Fs.find?_erase_self (fs : Fs) (p : Str) : (fs.erase p).find? p = none := by
  induction fs with
  | nil => rfl
  | cons e t ih =>
    by_cases h : e.1 = p
    · simpa [Fs.erase, h] using ih
    · simpa [Fs.erase, Fs.find?, h] using ih

theorem Fs.find?_erase_ne (fs : Fs) (p q : Str) (h : q ≠ p) :
    (fs.erase p).find? q = fs.find? q := by
  have hpq : p ≠ q := Ne.symm h
  induction fs with
  | nil => rfl
  | cons e t ih =>
    by_cases he : e.1 = p
    · have hq : e.1 ≠ q := by rw [he]; exact hpq
      simp [Fs.erase, Fs.find?, he, hq, hpq, ih]
    · by_cases heq : e.1 = q
      · simp [Fs.erase, Fs.find?, he, heq, h, ih]
      · simp [Fs.erase, Fs.find?, he, heq, ih]

theorem Fs.find?_insert_self (fs : Fs) (p : Str) (n : Nat) :
    (fs.insert p n).find? p = some n := by
  simp [Fs.insert, Fs.find?]

theorem Fs.find?_insert_ne (fs : Fs) (p q : Str) (n : Nat) (h : q ≠ p) :
    (fs.insert p n).find? q = fs.find? q := by
  have : p ≠ q := fun hq => h hq.symm
  simp [Fs.insert, Fs.find?, this, Fs.find?_erase_ne fs p q h]

theorem Fs.hasFile_insert_self (fs : Fs) (p : Str) (n : Nat) :
    (fs.insert p n).hasFile p = true := by
  simp [Fs.hasFile, Fs.find?_insert_self]

theorem Fs.hasFile_erase_ne (fs : Fs) (p q : Str) (h : q ≠ p) :
    (fs.erase p).hasFile q = fs.hasFile q := by
  simp [Fs.hasFile, Fs.find?_erase_ne fs p q h]

theorem Fs.hasFile_insert_ne (fs : Fs) (p q : Str) (n : Nat) (h : q ≠ p) :
    (fs.insert p n).hasFile q = fs.hasFile q := by
  simp [Fs.hasFile, Fs.find?_insert_ne fs p q n h]

/-- A rename whose source is not `p` never destroys `p`. -/
theorem Fs.hasFile_rename_preserve (fs : Fs) (src dst p : Str)
    (hsrc : src ≠ p) (hp : fs.hasFile p = true) :
    (fs.rename src dst).hasFile p = true := by
  unfold Fs.rename
  by_cases hs : fs.hasFile src
  · simp only [hs, if_true]
    by_cases hd : dst = p
    · subst hd; exact Fs.hasFile_insert_self _ _ _
    · rw [Fs.hasFile_insert_ne _ _ _ _ (fun h => hd h.symm),
        Fs.hasFile_erase_ne _ _ _ (fun h => hsrc h.symm)]
      exact hp
  · simpa [hs] using hp

/-- Erasing a path other than `p` never destroys `p`. -/
theorem Fs.hasFile_erase_preserve (fs : Fs) (q p : Str)
    (hne : q ≠ p) (hp : fs.hasFile p = true) :
    (fs.erase q).hasFile p = true := by
  rw [Fs.hasFile_erase_ne _ _ _ (fun h => hne h.symm)]; exact hp

/-- Members of a directory listing share the reference file's parent. -/
theorem Fs.mem_iterdirOf {fs : Fs} {ref q : Str} (h : q ∈ fs.iterdirOf ref) :
    parentOf q = parentOf ref := by
  unfold Fs.iterdirOf at h
  have := List.of_mem_filter h
  simpa using this

theorem applyOps_append (fs : Fs) (a b : List FsOp) :
    applyOps fs (a ++ b) = applyOps (applyOps fs a) b := by
  simp [applyOps, List.foldl_append]

/-! ## C1 -/

/-- C1: a `force_cleanup` (Demote) call on a user-visible path whose
array-tier marker `arrayPath + ".moved_to_cache"` does not exist returns
the explicit not-managed refusal and leaves the entire engine state — in
particular the filesystem, hence any cache-tier copy — untouched, issuing
no filesystem operation at all. -/
theorem C1_demote_refuses_unmarked (c : Config) (st : EngineState) (input arr : Str)
    (harr : get_array c (normalizeInput c input) = some arr)
    (hmk : st.fs.hasFile (arr ++ HIDDEN_SUFFIX) = false) :
    force_cleanup c st input =
      (st, ⟨false,
        "Cannot cleanup: This is a native cache file, not managed by Emby Smart Cache.".data⟩,
       []) := by
  simp only [force_cleanup, harr, hmk]
  simp

/-- Witness for C1: an unmarked cache-tier file (present on the cache tier,
no marker on the array tier) survives a Demote request unchanged. -/
theorem C1_demote_refuses_unmarked_witness :
    force_cleanup cfg0 ⟨[(cacheW, 777)], emptyDb, [], [], []⟩ pathW =
      (⟨[(cacheW, 777)], emptyDb, [], [], []⟩,
       ⟨false,
        "Cannot cleanup: This is a native cache file, not managed by Emby Smart Cache.".data⟩,
       []) :=
  C1_demote_refuses_unmarked cfg0 ⟨[(cacheW, 777)], emptyDb, [], [], []⟩ pathW arrW
    (by decide) (by decide)

/-! ## C8 -/

/-- C8 counterexample: with a valid cache root but an array-only root that
fails `validate_path` (and is no `/mnt` mount at all), startup does not
exit — refuting the claim that the engine refuses to start whenever any of
the three tier roots is not a validated mount point. -/
theorem C8_counterexample :
    validate_path ("/tmp/array".data) = false ∧
    startupFatal ⟨true, "/mnt/user".data, "/mnt/cache".data, "/tmp/array".data, 1, 0, true,
      true, 24, [".mkv".data], [], 3⟩ = false := by decide

/-- Transitivity of the prefix test. -/
theorem hasPre_trans : ∀ {x y z : Str}, hasPre x y = true → hasPre y z = true →
    hasPre x z = true
  | [], _, _, _, _ => rfl
  | a :: as, b :: bs, c :: cs, h1, h2 => by
    simp only [hasPre, Bool.and_eq_true, beq_iff_eq] at h1 h2 ⊢
    exact ⟨h1.1.trans h2.1, hasPre_trans h1.2 h2.2⟩

/-- C8 amended: startup aborts exactly when `Config.validate_path` rejects
`CACHE_PATH`, and `validate_path` accepts exactly the paths extending one
of the five whitelisted mount prefixes (the `/mnt/` guard is subsumed);
the user-view and array-only roots are not examined at startup. -/
theorem C8_amended_startup_checks_cache_root (c : Config) :
    (startupFatal c = true ↔ validate_path c.CACHE_PATH = false) ∧
    (∀ p : Str, validate_path p = true ↔
      ∃ pre ∈ VALID_MOUNT_PREFIXES, startsWithS p pre = true) := by
  constructor
  · simp [startupFatal]
  · intro p
    constructor
    · intro h
      unfold validate_path at h
      by_cases hm : startsWithS p "/mnt/".data
      · simp only [hm, Bool.not_true, Bool.false_eq_true, if_false] at h
        obtain ⟨pre, hpre, hs⟩ := List.any_eq_true.mp h
        exact ⟨pre, hpre, hs⟩
      · simp [hm] at h
    · rintro ⟨pre, hpre, hs⟩
      have hm : startsWithS p "/mnt/".data = true := by
        fin_cases hpre <;>
          exact hasPre_trans (by decide) hs
      unfold validate_path
      simp only [hm, Bool.not_true, Bool.false_eq_true, if_false]
      exact List.any_eq_true.mpr ⟨pre, hpre, hs⟩

/-- Witness for C8 amended: an invalid cache root is fatal, and a disk
mount passes validation. -/
theorem C8_amended_startup_checks_cache_root_witness :
    startupFatal ⟨true, "/mnt/user".data, "/dev/shm/cache".data, "/mnt/user0".data, 1, 0,
      true, true, 24, [".mkv".data], [], 3⟩ = true ∧
    validate_path "/mnt/disk1/movies".data = true :=
  ⟨(C8_amended_startup_checks_cache_root _).1.mpr (by decide),
   ((C8_amended_startup_checks_cache_root cfg0).2 _).mpr
     ⟨"/mnt/disk".data, by decide, by decide⟩⟩

/-! ## C9 -/

/-- C9 counterexample: for a path outside the user root no array-tier path
can be computed and no marker can exist (the filesystem here is empty),
yet `schedule_cleanup` inserts a queue entry — refuting the claim that the
call is a no-op whenever the marker is absent, including when no
array-tier path can be computed. -/
theorem C9_counterexample :
    get_array cfg0 "/data/movie.mkv".data = none ∧
    (schedule_cleanup cfg0 [] emptyDb 1000 "/data/movie.mkv".data).queue =
      [⟨"/data/movie.mkv".data, "movie.mkv".data, 1000 + 24 * 3600⟩] := by decide

/-- C9 amended: with `DELETE_ON_STOP` disabled the call is always a no-op.
With it enabled and an array-tier path computable, the queue entry (due at
`now + CLEANUP_DELAY_HOURS * 3600`) is inserted-or-replaced exactly when
the marker exists; when no array-tier path can be computed the entry is
inserted-or-replaced regardless of any marker. -/
theorem C9_amended_schedule_characterization (c : Config) (fs : Fs) (db : Db) (now : Nat)
    (path : Str) :
    (c.DELETE_ON_STOP = false → schedule_cleanup c fs db now path = db) ∧
    (∀ arr, c.DELETE_ON_STOP = true → get_array c path = some arr →
      fs.hasFile (arr ++ HIDDEN_SUFFIX) = false → schedule_cleanup c fs db now path = db) ∧
    (∀ arr, c.DELETE_ON_STOP = true → get_array c path = some arr →
      fs.hasFile (arr ++ HIDDEN_SUFFIX) = true →
      (schedule_cleanup c fs db now path).queue =
        db.queue.filter (fun q => q.user_path != path) ++
          [⟨path, nameOf path, now + c.CLEANUP_DELAY_HOURS * 3600⟩]) ∧
    (c.DELETE_ON_STOP = true → get_array c path = none →
      (schedule_cleanup c fs db now path).queue =
        db.queue.filter (fun q => q.user_path != path) ++
          [⟨path, nameOf path, now + c.CLEANUP_DELAY_HOURS * 3600⟩]) := by
  refine ⟨fun h => by simp [schedule_cleanup, h], fun arr h1 h2 h3 => ?_,
    fun arr h1 h2 h3 => ?_, fun h1 h2 => ?_⟩
  · unfold schedule_cleanup
    rw [h2]
    simp [h1, h3]
  · unfold schedule_cleanup
    rw [h2]
    simp [h1, h3, Db.schedule_cleanup]
  · unfold schedule_cleanup
    rw [h2]
    simp [h1, Db.schedule_cleanup]

/-- Witness for C9 amended: a marked file is enqueued with the configured
delay, and a disabled feature makes the call a no-op. -/
theorem C9_amended_schedule_characterization_witness :
    (schedule_cleanup cfg0 [(arrW ++ HIDDEN_SUFFIX, 5)] emptyDb 50 pathW).queue =
      [⟨pathW, "film.mkv".data, 50 + 24 * 3600⟩] ∧
    schedule_cleanup ⟨true, "/mnt/user".data, "/mnt/cache".data, "/mnt/user0".data, 1, 0,
      true, false, 24, [".mkv".data], [], 3⟩ [] emptyDb 50 pathW = emptyDb :=
  ⟨by
    have h := (C9_amended_schedule_characterization cfg0 [(arrW ++ HIDDEN_SUFFIX, 5)]
      emptyDb 50 pathW).2.2.1 arrW rfl (by decide) (by decide)
    rw [h]; decide,
   (C9_amended_schedule_characterization _ [] emptyDb 50 pathW).1 rfl⟩

/-! ## Recovery-scan lemmas -/

/-- The database component of the scan's fold: the batch of derived rows
written over the prior `managed_files` with keyed insert-or-replace, while
`cleanup_queue` and `activity_log` are untouched. -/
theorem recoverStep_none {c : Config} {fs : Fs} {st : Db × List Str} {hidden : Str}
    (hrow : recoverRow? c fs hidden = none) : recoverStep c fs st hidden = st := by
  unfold recoverStep; rw [hrow]

theorem recoverStep_some {c : Config} {fs : Fs} {hidden : Str} {r : ManagedRow}
    (db : Db) (mi : List Str) (hrow : recoverRow? c fs hidden = some r) :
    recoverStep c fs (db, mi) hidden =
      (⟨insertManaged db.managed r, db.queue, db.activity⟩,
       miAdd mi (get_user c r.user_path)) := by
  unfold recoverStep
  rw [hrow]
  rfl

theorem recoverFold_fst (c : Config) (fs : Fs) : ∀ (hl : List Str) (db : Db) (mi : List Str),
    (hl.foldl (recoverStep c fs) (db, mi)).1 =
      ⟨(hl.filterMap (recoverRow? c fs)).foldl insertManaged db.managed, db.queue, db.activity⟩
  | [], db, mi => rfl
  | h :: t, db, mi => by
    cases hrow : recoverRow? c fs h with
    | none =>
      rw [List.foldl_cons, recoverStep_none hrow, List.filterMap_cons]
      simp only [hrow]
      exact recoverFold_fst c fs t db mi
    | some r =>
      rw [List.foldl_cons, recoverStep_some db mi hrow, List.filterMap_cons]
      simp only [hrow]
      rw [List.foldl_cons]
      exact recoverFold_fst c fs t ⟨insertManaged db.managed r, db.queue, db.activity⟩
        (miAdd mi (get_user c r.user_path))

/-- The mover-ignore component of the scan's fold. -/
theorem recoverFold_snd (c : Config) (fs : Fs) : ∀ (hl : List Str) (db : Db) (mi : List Str),
    (hl.foldl (recoverStep c fs) (db, mi)).2 =
      ((hl.filterMap (recoverRow? c fs)).map (fun r => get_user c r.user_path)).foldl miAdd mi
  | [], db, mi => rfl
  | h :: t, db, mi => by
    cases hrow : recoverRow? c fs h with
    | none =>
      rw [List.foldl_cons, recoverStep_none hrow, List.filterMap_cons]
      simp only [hrow]
      exact recoverFold_snd c fs t db mi
    | some r =>
      rw [List.foldl_cons, recoverStep_some db mi hrow, List.filterMap_cons]
      simp only [hrow]
      rw [List.map_cons, List.foldl_cons]
      exact recoverFold_snd c fs t ⟨insertManaged db.managed r, db.queue, db.activity⟩
        (miAdd mi (get_user c r.user_path))

/-- Scan `recover_state`, database component, in closed form. -/
theorem recover_state_fst (c : Config) (fs : Fs) (db : Db) (mi : List Str) :
    (recover_state c fs db mi).1 =
      ⟨(recoverRows c fs).foldl insertManaged db.managed, db.queue, db.activity⟩ :=
  recoverFold_fst c fs (recoverMarkers c fs) db mi

/-- Scan `recover_state`, mover-ignore component, in closed form. -/
theorem recover_state_snd (c : Config) (fs : Fs) (db : Db) (mi : List Str) :
    (recover_state c fs db mi).2 =
      ((recoverRows c fs).map (fun r => get_user c r.user_path)).foldl miAdd mi :=
  recoverFold_snd c fs (recoverMarkers c fs) db mi

/-- A batch of keyed insert-or-replace writes: the rows of `m` whose keys
the batch does not mention survive in place; the batch itself lands as it
would on an empty table. -/
theorem foldl_insertManaged_eq : ∀ (l : List ManagedRow) (m : List ManagedRow),
    l.foldl insertManaged m = m.filter (rowKeyFree l) ++ l.foldl insertManaged []
  | [], m => by
    simp only [List.foldl_nil, List.append_nil]
    exact (List.filter_eq_self.mpr (fun a _ => rfl)).symm
  | r :: t, m => by
    rw [List.foldl_cons, foldl_insertManaged_eq t (insertManaged m r), List.foldl_cons,
      foldl_insertManaged_eq t (insertManaged [] r)]
    have hins : insertManaged [] r = [r] := rfl
    rw [hins]
    show (m.filter (fun x => x.user_path != r.user_path) ++ [r]).filter (rowKeyFree t) ++
        t.foldl insertManaged [] =
      m.filter (rowKeyFree (r :: t)) ++ ([r].filter (rowKeyFree t) ++ t.foldl insertManaged [])
    rw [List.filter_append, List.append_assoc]
    congr 1
    rw [List.filter_filter]
    apply List.filter_congr
    intro x _
    have hsym : (x.user_path != r.user_path) = !(r.user_path == x.user_path) := by
      by_cases hxy : x.user_path = r.user_path
      · simp [hxy]
      · have hyx : ¬(r.user_path = x.user_path) := fun hh => hxy hh.symm
        have h1 : (x.user_path == r.user_path) = false := beq_eq_false_iff_ne.mpr hxy
        have h2 : (r.user_path == x.user_path) = false := beq_eq_false_iff_ne.mpr hyx
        simp [bne, h1, h2]
    simp only [rowKeyFree, List.any_cons, Bool.not_or, hsym]
    exact Bool.and_comm _ _

/-- Every row of the written table came from the prior table or from the
batch. -/
theorem mem_foldl_insertManaged : ∀ (l : List ManagedRow) (m : List ManagedRow)
    (x : ManagedRow), x ∈ l.foldl insertManaged m → x ∈ m ∨ x ∈ l
  | [], _, _, hx => Or.inl hx
  | r :: t, m, x, hx => by
    rw [List.foldl_cons] at hx
    rcases mem_foldl_insertManaged t (insertManaged m r) x hx with h | h
    · unfold insertManaged at h
      rcases List.mem_append.mp h with h | h
      · exact Or.inl (List.mem_of_mem_filter h)
      · exact Or.inr (List.mem_cons.mpr (Or.inl (List.mem_singleton.mp h)))
    · exact Or.inr (List.mem_cons.mpr (Or.inr h))

/-- Writing the same batch twice is the same as writing it once. -/
theorem foldl_insertManaged_idem (l : List ManagedRow) (m : List ManagedRow) :
    l.foldl insertManaged (l.foldl insertManaged m) = l.foldl insertManaged m := by
  rw [foldl_insertManaged_eq l (l.foldl insertManaged m), foldl_insertManaged_eq l m,
    List.filter_append]
  have h1 : (m.filter (rowKeyFree l)).filter (rowKeyFree l) = m.filter (rowKeyFree l) := by
    rw [List.filter_filter]
    apply List.filter_congr
    intro x _
    simp
  have h2 : (l.foldl insertManaged []).filter (rowKeyFree l) = [] := by
    rw [List.filter_eq_nil_iff]
    intro x hx
    rcases mem_foldl_insertManaged l [] x hx with h | h
    · exact absurd h (List.not_mem_nil x)
    · simp only [rowKeyFree, Bool.not_eq_true', Bool.not_eq_false]
      exact List.any_eq_true.mpr ⟨x, h, by simp⟩
  rw [h1, h2, List.append_nil]

theorem miAdd_contains_mono (m : List Str) (x y : Str) (h : m.contains x = true) :
    (miAdd m y).contains x = true := by
  unfold miAdd
  by_cases hy : m.contains y = true
  · rw [hy]
    simpa using h
  · rw [Bool.not_eq_true] at hy
    rw [hy]
    simp only [Bool.false_eq_true, if_false]
    rw [List.elem_iff] at h ⊢
    exact List.mem_append_left _ h

theorem foldl_miAdd_contains_mono : ∀ (l : List Str) (m : List Str) (x : Str),
    m.contains x = true → (l.foldl miAdd m).contains x = true
  | [], _, _, h => h
  | y :: t, m, x, h =>
    foldl_miAdd_contains_mono t (miAdd m y) x (miAdd_contains_mono m x y h)

theorem foldl_miAdd_contains_of_mem : ∀ (l : List Str) (m : List Str) (x : Str),
    x ∈ l → (l.foldl miAdd m).contains x = true
  | [], _, _, h => absurd h (List.not_mem_nil _)
  | y :: t, m, x, h => by
    rcases List.mem_cons.mp h with h | h
    · subst h
      refine foldl_miAdd_contains_mono t (miAdd m x) x ?_
      unfold miAdd
      by_cases hy : m.contains x = true
      · rw [hy]
        simpa using hy
      · rw [Bool.not_eq_true] at hy
        rw [hy]
        simp only [Bool.false_eq_true, if_false]
        rw [List.elem_iff]
        exact List.mem_append_right _ (List.mem_singleton.mpr rfl)
    · exact foldl_miAdd_contains_of_mem t (miAdd m y) x h

theorem foldl_miAdd_noop : ∀ (l : List Str) (m : List Str),
    (∀ x ∈ l, m.contains x = true) → l.foldl miAdd m = m
  | [], _, _ => rfl
  | y :: t, m, h => by
    have hy : miAdd m y = m := by
      unfold miAdd
      rw [h y (List.mem_cons_self y t)]
      simp
    rw [List.foldl_cons, hy]
    exact foldl_miAdd_noop t m (fun x hx => h x (List.mem_cons_of_mem y hx))

/-- Registering the same mover-ignore batch twice equals registering it
once. -/
theorem foldl_miAdd_idem (l : List Str) (m : List Str) :
    l.foldl miAdd (l.foldl miAdd m) = l.foldl miAdd m :=
  foldl_miAdd_noop l (l.foldl miAdd m) (fun x hx => foldl_miAdd_contains_of_mem l m x hx)

/-! ## C5 -/

/-- A marker `recoverRow?` accepts points at an existing, non-empty cache
copy. -/
theorem recoverRow?_sound {c : Config} {fs : Fs} {hidden : Str} {r : ManagedRow}
    (h : recoverRow? c fs hidden = some r) :
    fs.hasFile r.cache_path = true ∧ fs.sizeOf r.cache_path ≠ 0 := by
  simp only [recoverRow?] at h
  split at h
  · exact absurd h (by simp)
  · split at h
    · exact absurd h (by simp)
    · split at h
      · exact absurd h (by simp)
      · split at h
        · exact absurd h (by simp)
        · rename_i hex hz
          rw [Option.some_inj] at h
          subst h
          constructor
          · simpa using hex
          · simpa using hz

/-- C5: the recovery scan leaves the activity log (hence emits no
promote/copy record) and the cleanup queue untouched, and every row of the
resulting `managed_files` table either predates the scan or refers to a
cache copy that exists with non-zero size — no incomplete marker/cache
pair is ever registered. -/
theorem C5_recover_registers_only_complete_pairs (c : Config) (fs : Fs) (db : Db)
    (mi : List Str) :
    (recover_state c fs db mi).1.activity = db.activity ∧
    (recover_state c fs db mi).1.queue = db.queue ∧
    ∀ r ∈ (recover_state c fs db mi).1.managed,
      r ∈ db.managed ∨ (fs.hasFile r.cache_path = true ∧ fs.sizeOf r.cache_path ≠ 0) := by
  rw [recover_state_fst]
  refine ⟨rfl, rfl, fun r hr => ?_⟩
  rcases mem_foldl_insertManaged _ _ _ hr with h | h
  · exact Or.inl h
  · rcases List.mem_filterMap.mp h with ⟨hidden, _, hrow⟩
    exact Or.inr (recoverRow?_sound hrow)

/-- Witness for C5: a recovered row from a concrete marker/cache pair
satisfies the completeness property, with log and queue unchanged. -/
theorem C5_recover_registers_only_complete_pairs_witness :
    (recover_state cfg0 [(arrW ++ HIDDEN_SUFFIX, 9), (cacheW, 9)] emptyDb []).1.activity =
        [] ∧
    ((⟨pathW, cacheW, arrW, "film.mkv".data, 9⟩ : ManagedRow) ∈ emptyDb.managed ∨
      (Fs.hasFile [(arrW ++ HIDDEN_SUFFIX, 9), (cacheW, 9)] cacheW = true ∧
        Fs.sizeOf [(arrW ++ HIDDEN_SUFFIX, 9), (cacheW, 9)] cacheW ≠ 0)) := by
  have h := C5_recover_registers_only_complete_pairs cfg0
    [(arrW ++ HIDDEN_SUFFIX, 9), (cacheW, 9)] emptyDb []
  exact ⟨h.1, h.2.2 ⟨pathW, cacheW, arrW, "film.mkv".data, 9⟩ (by decide)⟩

/-! ## C6 -/

/-- C6 counterexample: with an empty filesystem the marker scan derives no
rows, so a scan that "fully replaces the prior derived ManagedFile state"
would leave the table empty; instead a pre-existing stale row survives the
run untouched — the scan merges into the stored state, it does not replace
it. -/
theorem C6_counterexample :
    recoverMarkers cfg0 [] = [] ∧
    (recover_state cfg0 [] ⟨[staleRow], [], []⟩ []).1.managed = [staleRow] := by decide

/-- C6 amended: running the recovery scan twice in succession is the same
as running it once (keyed insert-or-replace and mover-ignore registration
are idempotent), so no entry is double-registered; but the scan itself
merges into whatever `managed_files` rows already exist, and full
replacement of derived state happens only through the rebuild command,
whose result is independent of the prior table because it clears the
store before scanning. -/
theorem C6_amended_recover_idempotent (c : Config) (fs : Fs) (db : Db) (mi : List Str) :
    recover_state c fs (recover_state c fs db mi).1 (recover_state c fs db mi).2 =
      recover_state c fs db mi ∧
    ∀ db' : Db, (rebuild c fs db mi).1.managed = (rebuild c fs db' mi).1.managed := by
  constructor
  · have hfst := recover_state_fst c fs db mi
    have hsnd := recover_state_snd c fs db mi
    have hfst2 := recover_state_fst c fs (recover_state c fs db mi).1
      (recover_state c fs db mi).2
    have hsnd2 := recover_state_snd c fs (recover_state c fs db mi).1
      (recover_state c fs db mi).2
    apply Prod.ext
    · rw [hfst2, hfst]
      rw [foldl_insertManaged_idem]
    · rw [hsnd2, hsnd]
      exact foldl_miAdd_idem _ mi
  · intro db'
    rw [rebuild, rebuild, recover_state_fst, recover_state_fst]
    rfl

/-- Witness for C6 amended: the rebuild result on the stale database equals
the rebuild result on the empty database. -/
theorem C6_amended_recover_idempotent_witness :
    (rebuild cfg0 [] ⟨[staleRow], [], []⟩ []).1.managed =
      (rebuild cfg0 [] emptyDb []).1.managed :=
  (C6_amended_recover_idempotent cfg0 [] ⟨[staleRow], [], []⟩ []).2 emptyDb

/-! ## C7 -/

/-- The branches reachable after the queue-removal and dedup steps: the
size/space rejections return their input state unchanged, none of them
reports an earlier precondition, and none of them touches the dedup set. -/
theorem copyFileRest_frame (c : Config) (env : Env) (st : EngineState) (path arr cacheP : Str) :
    ((copyFileRest c env st path arr cacheP).2 = .tooLarge ∨
     (copyFileRest c env st path arr cacheP).2 = .noSpace →
      (copyFileRest c env st path arr cacheP).1 = st) ∧
    ((copyFileRest c env st path arr cacheP).2 = .disabled ∨
     (copyFileRest c env st path arr cacheP).2 = .excluded ∨
     (copyFileRest c env st path arr cacheP).2 = .badExt ∨
     (copyFileRest c env st path arr cacheP).2 = .parityBusy ∨
     (copyFileRest c env st path arr cacheP).2 = .noPath ∨
     (copyFileRest c env st path arr cacheP).2 = .invalidCachePath ∨
     (copyFileRest c env st path arr cacheP).2 = .hardlinkSkip ∨
     (copyFileRest c env st path arr cacheP).2 = .alreadyProcessed → False) ∧
    (copyFileRest c env st path arr cacheP).1.processed = st.processed := by
  unfold copyFileRest
  by_cases hA : st.fs.hasFile arr = true <;> simp only [hA] <;> split_ifs <;> simp

/-- C7 counterexample: a path currently in the cleanup queue triggers the
size-ceiling rejection (3 GB file, 1 GB ceiling), yet the call has already
removed the cleanup-queue row — the size rejection is not free of database
side effects. -/
theorem C7_counterexample :
    (copy_file cfgCeil envIdle stQueued pathW none).2 = .tooLarge ∧
    stQueued.db.queue = [queuedW] ∧
    (copy_file cfgCeil envIdle stQueued pathW none).1.db.queue = [] := by decide

/-- C7 amended: the feature-disabled, exclusion, extension, maintenance,
unmappable-path, cache-path-validation and hard-link rejections are hard
rejects returning the engine state bit-for-bit unchanged.  The size-ceiling
and free-space rejections, which run after the resume handling and the
dedup registration, leave the filesystem, `managed_files`, `activity_log`,
mover-ignore list and active set unchanged but have already deleted the
path's cleanup-queue row and, when a dedup key was supplied, recorded it
in the processed set. -/
theorem C7_amended_rejections (c : Config) (env : Env) (st : EngineState) (path : Str)
    (item_id : Option Str) :
    ((copy_file c env st path item_id).2 = .disabled ∨
     (copy_file c env st path item_id).2 = .excluded ∨
     (copy_file c env st path item_id).2 = .badExt ∨
     (copy_file c env st path item_id).2 = .parityBusy ∨
     (copy_file c env st path item_id).2 = .noPath ∨
     (copy_file c env st path item_id).2 = .invalidCachePath ∨
     (copy_file c env st path item_id).2 = .hardlinkSkip →
      (copy_file c env st path item_id).1 = st) ∧
    ((copy_file c env st path item_id).2 = .tooLarge ∨
     (copy_file c env st path item_id).2 = .noSpace →
      (copy_file c env st path item_id).1.fs = st.fs ∧
      (copy_file c env st path item_id).1.db.managed = st.db.managed ∧
      (copy_file c env st path item_id).1.db.activity = st.db.activity ∧
      (copy_file c env st path item_id).1.moverIgnore = st.moverIgnore ∧
      (copy_file c env st path item_id).1.active = st.active ∧
      (copy_file c env st path item_id).1.db.queue =
        st.db.queue.filter (fun q => q.user_path != path) ∧
      ((copy_file c env st path item_id).1.processed = st.processed ∨
        ∃ i, item_id = some i ∧
          (copy_file c env st path item_id).1.processed = st.processed ++ [i])) := by
  simp only [copy_file]
  split
  · simp
  · split
    · simp
    · split
      · simp
      · split
        · simp
        · split
          · rename_i arr cacheP harr hcache
            split
            · simp
            · split
              · simp
              · split
                · rename_i i
                  split
                  · simp
                  · have h := copyFileRest_frame c env
                      ⟨st.fs, (st.db.remove_from_queue path).1, st.moverIgnore,
                        st.processed ++ [i], st.active⟩ path arr cacheP
                    constructor
                    · intro hh
                      exact (h.2.1 (by rcases hh with h1|h1|h1|h1|h1|h1|h1 <;> simp [h1])).elim
                    · intro hh
                      rw [h.1 hh]
                      exact ⟨rfl, rfl, rfl, rfl, rfl, rfl, Or.inr ⟨i, rfl, rfl⟩⟩
                · have h := copyFileRest_frame c env
                    ⟨st.fs, (st.db.remove_from_queue path).1, st.moverIgnore,
                      st.processed, st.active⟩ path arr cacheP
                  constructor
                  · intro hh
                    exact (h.2.1 (by rcases hh with h1|h1|h1|h1|h1|h1|h1 <;> simp [h1])).elim
                  · intro hh
                    rw [h.1 hh]
                    exact ⟨rfl, rfl, rfl, rfl, rfl, rfl, Or.inl rfl⟩
          · simp

/-- Witness for C7 amended: a disabled engine rejects with the state
unchanged. -/
theorem C7_amended_rejections_witness :
    (copy_file ⟨false, "/mnt/user".data, "/mnt/cache".data, "/mnt/user0".data, 1, 0, true,
        true, 24, [".mkv".data], [], 3⟩ envIdle stQueued pathW none).1 = stQueued :=
  (C7_amended_rejections _ envIdle stQueued pathW none).1 (Or.inl (by decide))

/-! ## C10 -/

/-- C10 counterexample: the dedup key is already in the processed set and
the path is in the cleanup queue; the duplicate call returns
`alreadyProcessed` without copying, yet it has removed the queue row — the
duplicate call is not free of state changes. -/
theorem C10_counterexample :
    (copy_file cfg0 envIdle stDeduped pathW (some "item-42".data)).2 = .alreadyProcessed ∧
    stDeduped.db.queue = [queuedW] ∧
    (copy_file cfg0 envIdle stDeduped pathW (some "item-42".data)).1.db.queue = [] := by
  decide

/-- C10 amended: a dedup key passed to `copy_file` is added to the
in-memory processed set at check time and no engine operation ever removes
entries from that set (`copy_file` only grows it, `force_cleanup` and the
copy worker never touch it).  A later `copy_file` call with a key already
in the set never starts a copy worker and leaves the filesystem,
`managed_files`, `activity_log`, mover-ignore list, active set and the
processed set itself unchanged — but it may still delete the path's
cleanup-queue row (resume handling), which runs before the dedup check. -/
theorem C10_amended_dedup_sticky (c : Config) (env : Env) (st : EngineState) (path : Str)
    (item_id : Option Str) (i : Str) :
    (∀ j ∈ st.processed, j ∈ (copy_file c env st path item_id).1.processed) ∧
    (∀ input, (force_cleanup c st input).1.processed = st.processed) ∧
    (∀ ok swapOk up cp ar sb, (worker c ok swapOk st up cp ar sb).1.processed = st.processed) ∧
    (st.processed.contains i = true →
      (copy_file c env st path (some i)).2 ≠ .workerStarted ∧
      (copy_file c env st path (some i)).1.fs = st.fs ∧
      (copy_file c env st path (some i)).1.db.managed = st.db.managed ∧
      (copy_file c env st path (some i)).1.db.activity = st.db.activity ∧
      (copy_file c env st path (some i)).1.moverIgnore = st.moverIgnore ∧
      (copy_file c env st path (some i)).1.active = st.active ∧
      (copy_file c env st path (some i)).1.processed = st.processed ∧
      ((copy_file c env st path (some i)).1.db.queue = st.db.queue ∨
       (copy_file c env st path (some i)).1.db.queue =
         st.db.queue.filter (fun q => q.user_path != path))) := by
  refine ⟨?_, ?_, ?_, ?_⟩
  · intro j hj
    simp only [copy_file]
    split
    · exact hj
    · split
      · exact hj
      · split
        · exact hj
        · split
          · exact hj
          · split
            · rename_i arr cacheP harr hcache
              split
              · exact hj
              · split
                · exact hj
                · split
                  · rename_i k
                    split
                    · exact hj
                    · rw [(copyFileRest_frame c env
                        ⟨st.fs, (st.db.remove_from_queue path).1, st.moverIgnore,
                          st.processed ++ [k], st.active⟩ path arr cacheP).2.2]
                      exact List.mem_append_left _ hj
                  · rw [(copyFileRest_frame c env
                      ⟨st.fs, (st.db.remove_from_queue path).1, st.moverIgnore,
                        st.processed, st.active⟩ path arr cacheP).2.2]
                    exact hj
            · exact hj
  · intro input
    simp only [force_cleanup]
    split
    · rfl
    · split
      · rfl
      · rfl
  · intro ok swapOk up cp ar sb
    simp only [worker]
    split
    · rfl
    · split
      · rfl
      · rfl
  · intro hc
    simp only [copy_file]
    split
    · simp
    · split
      · simp
      · split
        · simp
        · split
          · simp
          · split
            · rename_i arr cacheP harr hcache
              split
              · simp
              · split
                · simp
                · simp only [hc]
                  simp [Db.remove_from_queue]
            · simp

/-- Witness for C10 amended: concrete instances of the stickiness and the
duplicate-call behaviour. -/
theorem C10_amended_dedup_sticky_witness :
    "item-42".data ∈ (copy_file cfg0 envIdle stDeduped pathW none).1.processed ∧
    (copy_file cfg0 envIdle stDeduped pathW (some "item-42".data)).2 ≠ .workerStarted := by
  have h := C10_amended_dedup_sticky cfg0 envIdle stDeduped pathW none "item-42".data
  exact ⟨h.1 "item-42".data (by decide), (h.2.2.2 (by decide)).1⟩

/-! ## C4 -/

/-- The rsync retry loop under an always-failing copy tool: overall failure,
with a `2 ^ attempt` second wait after every attempt that leaves another
one (attempts run from `att` while fuel lasts, waits only below `maxR`). -/
theorem rsyncGo_allFail (ok : Nat → Bool) (maxR : Nat) (hfail : ∀ a, ok a = false) :
    ∀ (fuel att : Nat), rsyncGo ok maxR att fuel =
      (false, (List.range' att (min fuel (maxR - att))).map (fun a => 2 ^ a))
  | 0, att => by simp [rsyncGo]
  | fuel + 1, att => by
    rw [rsyncGo]
    rw [hfail att]
    rw [rsyncGo_allFail ok maxR hfail fuel (att + 1)]
    by_cases hlt : att < maxR
    · have hmin : min (fuel + 1) (maxR - att) = min fuel (maxR - (att + 1)) + 1 := by omega
      simp only [Bool.false_eq_true, if_false, hlt, if_true, hmin, List.range'_succ,
        List.map_cons]
    · have h1 : maxR - att = 0 := by omega
      have h2 : maxR - (att + 1) = 0 := by omega
      simp [hlt, h1, h2]

/-- The best-effort sidecar copy loop never touches a path that is not one
of its computed destinations. -/
theorem foldl_sidecarCopy_preserve (cacheP p : Str) :
    ∀ (l : List Str) (fs : Fs), (∀ f ∈ l, withName cacheP (nameOf f) ≠ p) →
      (l.foldl (sidecarCopyStep cacheP) fs).find? p = fs.find? p
  | [], _, _ => rfl
  | f :: t, fs, h => by
    rw [List.foldl_cons,
      foldl_sidecarCopy_preserve cacheP p t _ (fun g hg => h g (List.mem_cons_of_mem f hg))]
    simp only [sidecarCopyStep]
    split
    · rfl
    · exact Fs.find?_insert_ne _ _ _ _ (Ne.symm (h f (List.mem_cons_self f t)))

/-- C4: when every attempt of the bulk copy fails, the worker reports a
failed promotion having slept the exponential backoff `2 ^ attempt` seconds
between consecutive attempts (attempts 1..RSYNC_RETRIES, so waits
`2^1..2^(RSYNC_RETRIES-1)`); the array-tier original is untouched, no
marker is created, no partial file survives, and the database and
mover-ignore registry are unchanged.  The sidecar hypothesis says the
best-effort subtitle copies do not alias the three primary paths. -/
theorem C4_copy_retry_exhaustion (c : Config) (st : EngineState)
    (up cacheP arr : Str) (sb : Nat) (ok : Nat → Bool) (swapOk : Bool)
    (hfail : ∀ a, ok a = false)
    (hside : ∀ f ∈ sidecarList st.fs arr,
      withName cacheP (nameOf f) ≠ arr ∧
      withName cacheP (nameOf f) ≠ arr ++ HIDDEN_SUFFIX ∧
      withName cacheP (nameOf f) ≠ cacheP ++ PARTIAL_SUFFIX) :
    (worker c ok swapOk st up cacheP arr sb).2.1 = .copyFailed ∧
    (worker c ok swapOk st up cacheP arr sb).2.2 =
      (List.range' 1 (c.RSYNC_RETRIES - 1)).map (fun a => 2 ^ a) ∧
    (worker c ok swapOk st up cacheP arr sb).1.fs.find? arr = st.fs.find? arr ∧
    (worker c ok swapOk st up cacheP arr sb).1.fs.find? (arr ++ HIDDEN_SUFFIX) =
      st.fs.find? (arr ++ HIDDEN_SUFFIX) ∧
    (worker c ok swapOk st up cacheP arr sb).1.fs.find? (cacheP ++ PARTIAL_SUFFIX) =
      st.fs.find? (cacheP ++ PARTIAL_SUFFIX) ∧
    (worker c ok swapOk st up cacheP arr sb).1.db = st.db ∧
    (worker c ok swapOk st up cacheP arr sb).1.moverIgnore = st.moverIgnore := by
  have hrun := rsyncGo_allFail ok c.RSYNC_RETRIES hfail c.RSYNC_RETRIES 1
  have hmin : min c.RSYNC_RETRIES (c.RSYNC_RETRIES - 1) = c.RSYNC_RETRIES - 1 := by omega
  refine ⟨?_, ?_, ?_, ?_, ?_, ?_, ?_⟩ <;>
    simp only [worker, hrun, hmin, Bool.not_false, if_true] <;> try rfl
  · exact foldl_sidecarCopy_preserve cacheP arr _ st.fs (fun f hf => (hside f hf).1)
  · exact foldl_sidecarCopy_preserve cacheP (arr ++ HIDDEN_SUFFIX) _ st.fs
      (fun f hf => (hside f hf).2.1)
  · exact foldl_sidecarCopy_preserve cacheP (cacheP ++ PARTIAL_SUFFIX) _ st.fs
      (fun f hf => (hside f hf).2.2)

/-- Witness for C4: three failed attempts with retry limit 3 yield waits of
2 and 4 seconds, a failed result, and an untouched original with no
marker. -/
theorem C4_copy_retry_exhaustion_witness :
    (worker cfg0 (fun _ => false) true ⟨[(arrW, 55)], emptyDb, [], [], []⟩
        pathW cacheW arrW 55).2.1 = WorkerResult.copyFailed ∧
    (worker cfg0 (fun _ => false) true ⟨[(arrW, 55)], emptyDb, [], [], []⟩
        pathW cacheW arrW 55).2.2 = [2, 4] ∧
    (worker cfg0 (fun _ => false) true ⟨[(arrW, 55)], emptyDb, [], [], []⟩
        pathW cacheW arrW 55).1.fs.find? arrW = some 55 ∧
    (worker cfg0 (fun _ => false) true ⟨[(arrW, 55)], emptyDb, [], [], []⟩
        pathW cacheW arrW 55).1.fs.find? (arrW ++ HIDDEN_SUFFIX) = none := by
  have h := C4_copy_retry_exhaustion cfg0 ⟨[(arrW, 55)], emptyDb, [], [], []⟩
    pathW cacheW arrW 55 (fun _ => false) true (fun _ => rfl) (by decide)
  refine ⟨h.1, ?_, ?_, ?_⟩
  · rw [h.2.1]; decide
  · rw [h.2.2.1]; decide
  · rw [h.2.2.2.1]; decide

/-! ## C2 -/

theorem Fs.find?_eq_none_of_hasFile_false {fs : Fs} {p : Str} (h : fs.hasFile p = false) :
    fs.find? p = none := by
  unfold Fs.hasFile at h
  cases hx : fs.find? p with
  | none => rfl
  | some v => rw [hx] at h; exact Bool.noConfusion h

theorem Fs.find?_eq_some_of_hasFile_true {fs : Fs} {p : Str} (h : fs.hasFile p = true) :
    fs.find? p = some (fs.sizeOf p) := by
  unfold Fs.hasFile at h
  cases hx : fs.find? p with
  | none => rw [hx] at h; exact Bool.noConfusion h
  | some v => rw [Fs.sizeOf, hx]; rfl

theorem Fs.sizeOf_insert_self (fs : Fs) (p : Str) (n : Nat) :
    (fs.insert p n).sizeOf p = n := by
  rw [Fs.sizeOf, Fs.find?_insert_self]
  rfl

/-- A rename whose source exists is an erase-then-insert of its size. -/
theorem Fs.rename_eq_of_hasFile {fs : Fs} {src : Str} (dst : Str)
    (h : fs.hasFile src = true) :
    fs.rename src dst = (fs.erase src).insert dst (fs.sizeOf src) := by
  unfold Fs.rename
  rw [h]
  rfl

/-- The hide-then-rollback sequence of the atomic swap: starting from a
filesystem holding the original but neither marker, partial nor any
leftovers of them, writing the partial, renaming the original to the
marker, renaming the marker back and deleting the partial restores every
path to its initial content.  The first two conjuncts discharge the
rollback code's own existence checks. -/
theorem rollback_chain (fs : Fs) (arr hidden tmp : Str) (sb : Nat)
    (harr : fs.hasFile arr = true) (hhid : fs.hasFile hidden = false)
    (htmp : fs.hasFile tmp = false) (h_th : tmp ≠ hidden) :
    ((fs.insert tmp sb).rename arr hidden).hasFile hidden = true ∧
    (((fs.insert tmp sb).rename arr hidden).rename hidden arr).hasFile tmp = true ∧
    ∀ p, ((((fs.insert tmp sb).rename arr hidden).rename hidden arr).erase tmp).find? p =
      fs.find? p := by
  have h_at : arr ≠ tmp := by intro he; rw [he, htmp] at harr; exact Bool.noConfusion harr
  have h_ah : arr ≠ hidden := by intro he; rw [he, hhid] at harr; exact Bool.noConfusion harr
  have b1 : (fs.insert tmp sb).hasFile arr = true := by
    rw [Fs.hasFile_insert_ne _ _ _ _ h_at]; exact harr
  have e2 : (fs.insert tmp sb).rename arr hidden =
      ((fs.insert tmp sb).erase arr).insert hidden ((fs.insert tmp sb).sizeOf arr) :=
    Fs.rename_eq_of_hasFile hidden b1
  have b2 : ((fs.insert tmp sb).rename arr hidden).hasFile hidden = true := by
    rw [e2]; exact Fs.hasFile_insert_self _ _ _
  have e3 : ((fs.insert tmp sb).rename arr hidden).rename hidden arr =
      (((fs.insert tmp sb).rename arr hidden).erase hidden).insert arr
        (((fs.insert tmp sb).rename arr hidden).sizeOf hidden) :=
    Fs.rename_eq_of_hasFile arr b2
  have b3 : (((fs.insert tmp sb).rename arr hidden).rename hidden arr).hasFile tmp = true := by
    rw [e3, Fs.hasFile_insert_ne _ _ _ _ (Ne.symm h_at),
      Fs.hasFile_erase_ne _ _ _ h_th, e2, Fs.hasFile_insert_ne _ _ _ _ h_th,
      Fs.hasFile_erase_ne _ _ _ (Ne.symm h_at)]
    exact Fs.hasFile_insert_self _ _ _
  refine ⟨b2, b3, fun p => ?_⟩
  by_cases hp1 : p = tmp
  · subst hp1
    rw [Fs.find?_erase_self, Fs.find?_eq_none_of_hasFile_false htmp]
  · rw [Fs.find?_erase_ne _ _ _ hp1]
    by_cases hp2 : p = arr
    · rw [hp2, e3, Fs.find?_insert_self]
      have hs1 : ((fs.insert tmp sb).rename arr hidden).sizeOf hidden = fs.sizeOf arr := by
        rw [e2, Fs.sizeOf_insert_self, Fs.sizeOf, Fs.find?_insert_ne _ _ _ _ h_at]
        rfl
      rw [hs1, Fs.find?_eq_some_of_hasFile_true harr]
    · by_cases hp3 : p = hidden
      · rw [hp3, e3, Fs.find?_insert_ne _ _ _ _ (Ne.symm h_ah), Fs.find?_erase_self,
          Fs.find?_eq_none_of_hasFile_false hhid]
      · rw [e3, Fs.find?_insert_ne _ _ _ _ hp2, Fs.find?_erase_ne _ _ _ hp3, e2,
          Fs.find?_insert_ne _ _ _ _ hp3, Fs.find?_erase_ne _ _ _ hp2,
          Fs.find?_insert_ne _ _ _ _ hp1]

/-- C2 counterexample: a promotion of a file that has a subtitle sidecar
next to it, whose second rename fails after the first succeeded, does not
restore exactly the pre-promotion filesystem state: the best-effort
sidecar copy made before the swap (source lines 974-983) is not rolled
back, so the cache-tier subtitle copy exists afterwards although it did
not exist before. -/
theorem C2_counterexample :
    (worker cfg0 (fun _ => true) false stSidecar pathW cacheW arrW 88).2.1 =
      WorkerResult.swapFailed ∧
    stSidecar.fs.hasFile srtCacheW = false ∧
    (worker cfg0 (fun _ => true) false stSidecar pathW cacheW arrW 88).1.fs.hasFile
      srtCacheW = true := by decide

/-- C2 amended: when the bulk copy has succeeded and the swap's second
rename (partial to final cache path) fails after the first (original to
marker) succeeded, the worker rolls back the swap: the marker is renamed
back to the original and the partial deleted, restoring the primary
file's four paths — original, marker, partial and final cache path —
exactly to their pre-promotion content, so no state with a marker present
but no final cache file is left standing, and the database and
mover-ignore registry are untouched.  Best-effort sidecar subtitle copies
made before the swap are not rolled back and may survive on the cache
tier.  The scenario hypotheses are the pre-promotion filesystem facts
(original present; marker, cache copy and partial absent) plus
non-aliasing of the sidecar copy destinations with the primary paths,
which the distinct tier roots guarantee. -/
theorem C2_amended_swap_rollback (c : Config) (st : EngineState) (up cacheP arr : Str)
    (sb : Nat) (ok : Nat → Bool)
    (hok : (rsyncGo ok c.RSYNC_RETRIES 1 c.RSYNC_RETRIES).1 = true)
    (harr : st.fs.hasFile arr = true)
    (hhid : st.fs.hasFile (arr ++ HIDDEN_SUFFIX) = false)
    (hcache : st.fs.hasFile cacheP = false)
    (htmp : st.fs.hasFile (cacheP ++ PARTIAL_SUFFIX) = false)
    (hth : cacheP ++ PARTIAL_SUFFIX ≠ arr ++ HIDDEN_SUFFIX)
    (hside : ∀ f ∈ sidecarList st.fs arr,
      withName cacheP (nameOf f) ≠ arr ∧
      withName cacheP (nameOf f) ≠ arr ++ HIDDEN_SUFFIX ∧
      withName cacheP (nameOf f) ≠ cacheP ++ PARTIAL_SUFFIX ∧
      withName cacheP (nameOf f) ≠ cacheP) :
    (worker c ok false st up cacheP arr sb).2.1 = .swapFailed ∧
    (worker c ok false st up cacheP arr sb).1.fs.find? arr = st.fs.find? arr ∧
    (worker c ok false st up cacheP arr sb).1.fs.find? (arr ++ HIDDEN_SUFFIX) = none ∧
    (worker c ok false st up cacheP arr sb).1.fs.find? (cacheP ++ PARTIAL_SUFFIX) = none ∧
    (worker c ok false st up cacheP arr sb).1.fs.find? cacheP = none ∧
    (worker c ok false st up cacheP arr sb).1.db = st.db ∧
    (worker c ok false st up cacheP arr sb).1.moverIgnore = st.moverIgnore := by
  have hp_arr : (sidecarCopyAll cacheP st.fs arr).find? arr = st.fs.find? arr :=
    foldl_sidecarCopy_preserve cacheP arr _ st.fs (fun f hf => (hside f hf).1)
  have hp_hid : (sidecarCopyAll cacheP st.fs arr).find? (arr ++ HIDDEN_SUFFIX) =
      st.fs.find? (arr ++ HIDDEN_SUFFIX) :=
    foldl_sidecarCopy_preserve cacheP (arr ++ HIDDEN_SUFFIX) _ st.fs
      (fun f hf => (hside f hf).2.1)
  have hp_tmp : (sidecarCopyAll cacheP st.fs arr).find? (cacheP ++ PARTIAL_SUFFIX) =
      st.fs.find? (cacheP ++ PARTIAL_SUFFIX) :=
    foldl_sidecarCopy_preserve cacheP (cacheP ++ PARTIAL_SUFFIX) _ st.fs
      (fun f hf => (hside f hf).2.2.1)
  have hp_cache : (sidecarCopyAll cacheP st.fs arr).find? cacheP = st.fs.find? cacheP :=
    foldl_sidecarCopy_preserve cacheP cacheP _ st.fs (fun f hf => (hside f hf).2.2.2)
  have harr0 : (sidecarCopyAll cacheP st.fs arr).hasFile arr = true := by
    unfold Fs.hasFile
    rw [hp_arr]
    exact harr
  have hhid0 : (sidecarCopyAll cacheP st.fs arr).hasFile (arr ++ HIDDEN_SUFFIX) = false := by
    unfold Fs.hasFile
    rw [hp_hid]
    exact hhid
  have htmp0 : (sidecarCopyAll cacheP st.fs arr).hasFile (cacheP ++ PARTIAL_SUFFIX) = false := by
    unfold Fs.hasFile
    rw [hp_tmp]
    exact htmp
  have hchain := rollback_chain (sidecarCopyAll cacheP st.fs arr) arr
    (arr ++ HIDDEN_SUFFIX) (cacheP ++ PARTIAL_SUFFIX) sb harr0 hhid0 htmp0 hth
  have hW : worker c ok false st up cacheP arr sb =
      ({ st with
         fs := (((((sidecarCopyAll cacheP st.fs arr).insert (cacheP ++ PARTIAL_SUFFIX)
           sb).rename arr (arr ++ HIDDEN_SUFFIX)).rename (arr ++ HIDDEN_SUFFIX) arr).erase
           (cacheP ++ PARTIAL_SUFFIX)),
         active := st.active.filter (fun q => q != up) },
       .swapFailed, (rsyncGo ok c.RSYNC_RETRIES 1 c.RSYNC_RETRIES).2) := by
    simp only [worker, hok, Bool.not_true, Bool.false_eq_true, if_false,
      hchain.1, hchain.2.1, if_true]
  rw [hW]
  refine ⟨rfl, ?_, ?_, ?_, ?_, rfl, rfl⟩
  · rw [hchain.2.2 arr, hp_arr]
  · rw [hchain.2.2 (arr ++ HIDDEN_SUFFIX), hp_hid,
      Fs.find?_eq_none_of_hasFile_false hhid]
  · rw [hchain.2.2 (cacheP ++ PARTIAL_SUFFIX), hp_tmp,
      Fs.find?_eq_none_of_hasFile_false htmp]
  · rw [hchain.2.2 cacheP, hp_cache, Fs.find?_eq_none_of_hasFile_false hcache]

/-- Witness for C2 amended: a concrete promotion with a subtitle sidecar
present whose second rename fails restores the primary file's paths
exactly — original back with its content, no marker, no partial, no final
cache file. -/
theorem C2_amended_swap_rollback_witness :
    (worker cfg0 (fun _ => true) false stSidecar pathW cacheW arrW 88).2.1 =
      WorkerResult.swapFailed ∧
    (worker cfg0 (fun _ => true) false stSidecar pathW cacheW arrW 88).1.fs.find? arrW =
      some 88 ∧
    (worker cfg0 (fun _ => true) false stSidecar pathW cacheW arrW 88).1.fs.find?
      (arrW ++ HIDDEN_SUFFIX) = none ∧
    (worker cfg0 (fun _ => true) false stSidecar pathW cacheW arrW 88).1.fs.find?
      cacheW = none := by
  have h := C2_amended_swap_rollback cfg0 stSidecar pathW cacheW arrW 88 (fun _ => true)
    (by decide) (by decide) (by decide) (by decide) (by decide) (by decide) (by decide)
  refine ⟨h.1, ?_, h.2.2.1, h.2.2.2.2.1⟩
  rw [h.2.1]
  decide

/-! ## C3 -/

/-- A property preserved by every operation of a trace holds after every
prefix of the trace. -/
theorem applyOps_take_preserve (P : Fs → Prop) :
    ∀ (ops : List FsOp) (fs : Fs), P fs →
      (∀ fs' op, op ∈ ops → P fs' → P (applyOp fs' op)) →
      ∀ k, P (applyOps fs (ops.take k))
  | [], fs, h0, _, k => by simpa [applyOps] using h0
  | _ :: _, fs, h0, _, 0 => by simpa [applyOps] using h0
  | op :: t, fs, h0, hstep, k + 1 => by
    rw [List.take_succ_cons]
    show P (applyOps (applyOp fs op) (t.take k))
    exact applyOps_take_preserve P t (applyOp fs op)
      (hstep fs op (List.mem_cons_self op t) h0)
      (fun fs' o ho => hstep fs' o (List.mem_cons_of_mem op ho)) k

/-- Under the ownership marker's presence, the demote trace opens with the
restore rename, and every later operation of the trace preserves the
restored original: the sidecar restores rename other files (the original's
name does not carry the marker suffix), and the deletions hit the cache
directory (or the cache copy itself), which is not the original's
directory. -/
theorem demoteOps_shape (fs : Fs) (arr cacheP : Str)
    (hmk : fs.hasFile (arr ++ HIDDEN_SUFFIX) = true)
    (hname : endsWithS (nameOf arr) HIDDEN_SUFFIX = false)
    (hdir : parentOf arr ≠ parentOf cacheP) :
    ∃ rest, demoteOps fs arr cacheP = FsOp.rename (arr ++ HIDDEN_SUFFIX) arr :: rest ∧
      ∀ op ∈ rest, ∀ fs' : Fs, fs'.hasFile arr = true →
        (applyOp fs' op).hasFile arr = true := by
  have hca : cacheP ≠ arr := fun he => hdir (by rw [he])
  simp only [demoteOps, hmk, eq_self_iff_true, if_true, List.cons_append, List.nil_append,
    List.singleton_append]
  refine ⟨_, rfl, ?_⟩
  intro op hop fs' hfs'
  rcases List.mem_append.mp hop with hmem | hmem
  · rcases List.mem_map.mp hmem with ⟨f, hf, hfop⟩
    have hf2 := List.of_mem_filter hf
    have hend : endsWithS (nameOf f) HIDDEN_SUFFIX = true := by
      simp only [Bool.and_eq_true] at hf2
      exact hf2.2
    have hfa : f ≠ arr := by
      intro he
      rw [he, hname] at hend
      exact Bool.noConfusion hend
    rw [← hfop]
    exact Fs.hasFile_rename_preserve fs' f (subtitleOrig f) arr hfa hfs'
  · split at hmem
    · rcases List.mem_cons.mp hmem with hop2 | hop2
      · rw [hop2]
        exact Fs.hasFile_erase_preserve fs' cacheP arr hca hfs'
      · rcases List.mem_map.mp hop2 with ⟨g, hg, hgop⟩
        have hgd := Fs.mem_iterdirOf (List.mem_of_mem_filter hg)
        have hga : g ≠ arr := by
          intro he
          rw [he] at hgd
          exact hdir hgd
        rw [← hgop]
        exact Fs.hasFile_erase_preserve fs' g arr hga hfs'
    · exact absurd hmem (List.not_mem_nil op)

/-- C3: for a Demote on a path whose marker exists, the very first
filesystem operation of the call's trace is the rename of the marker back
to the original array-tier path — so it strictly precedes the deletion of
the cache copy — and after every prefix of the trace at least one copy of
the file (original, marker or cache copy) exists on disk.  The hypotheses
say the original's own name is no marker name and that the array and cache
copies live in different directories, which the distinct tier roots
guarantee. -/
theorem C3_demote_restores_before_delete (c : Config) (st : EngineState)
    (input arr cacheP : Str)
    (harr : get_array c (normalizeInput c input) = some arr)
    (hcp : get_cache c (normalizeInput c input) = some cacheP)
    (hmk : st.fs.hasFile (arr ++ HIDDEN_SUFFIX) = true)
    (hname : endsWithS (nameOf arr) HIDDEN_SUFFIX = false)
    (hdir : parentOf arr ≠ parentOf cacheP) :
    (force_cleanup c st input).2.2.head? = some (FsOp.rename (arr ++ HIDDEN_SUFFIX) arr) ∧
    ∀ k, (applyOps st.fs ((force_cleanup c st input).2.2.take k)).hasFile arr = true ∨
      (applyOps st.fs ((force_cleanup c st input).2.2.take k)).hasFile
        (arr ++ HIDDEN_SUFFIX) = true ∨
      (applyOps st.fs ((force_cleanup c st input).2.2.take k)).hasFile cacheP = true := by
  have hops : (force_cleanup c st input).2.2 = demoteOps st.fs arr cacheP := by
    simp only [force_cleanup, harr, hcp, hmk, Option.getD_some, Bool.not_true,
      Bool.false_eq_true, if_false]
  obtain ⟨rest, hshape, hstep⟩ := demoteOps_shape st.fs arr cacheP hmk hname hdir
  rw [hops, hshape]
  refine ⟨rfl, fun k => ?_⟩
  cases k with
  | zero => exact Or.inr (Or.inl hmk)
  | succ k =>
    rw [List.take_succ_cons]
    have hbase : (applyOp st.fs (FsOp.rename (arr ++ HIDDEN_SUFFIX) arr)).hasFile arr = true := by
      show (st.fs.rename (arr ++ HIDDEN_SUFFIX) arr).hasFile arr = true
      rw [Fs.rename_eq_of_hasFile arr hmk]
      exact Fs.hasFile_insert_self _ _ _
    exact Or.inl (applyOps_take_preserve (fun m => m.hasFile arr = true) rest
      (applyOp st.fs (FsOp.rename (arr ++ HIDDEN_SUFFIX) arr)) hbase
      (fun fs' op hopmem hP => hstep op hopmem fs' hP) k)

/-- Witness for C3: on the promoted fixture, the trace opens with the
restore rename, and after the first operation (and after the whole trace)
a copy of the file exists. -/
theorem C3_demote_restores_before_delete_witness :
    (force_cleanup cfg0 stMarked pathW).2.2.head? =
      some (FsOp.rename (arrW ++ HIDDEN_SUFFIX) arrW) ∧
    ((applyOps stMarked.fs ((force_cleanup cfg0 stMarked pathW).2.2.take 1)).hasFile arrW =
        true ∨
      (applyOps stMarked.fs ((force_cleanup cfg0 stMarked pathW).2.2.take 1)).hasFile
        (arrW ++ HIDDEN_SUFFIX) = true ∨
      (applyOps stMarked.fs ((force_cleanup cfg0 stMarked pathW).2.2.take 1)).hasFile cacheW =
        true) := by
  have h := C3_demote_restores_before_delete cfg0 stMarked pathW arrW cacheW
    (by decide) (by decide) (by decide) (by decide) (by decide)
  exact ⟨h.1, h.2 1⟩

end SmartCache
